import Mathlib

/-!
# Verification of the polygon / transverse-shear core of `python-mechanics`

Shallow embedding of `mechanics/geometry/shapes/shapes.py` (`Polygon`,
`HollowPolygon`), `mechanics/section/geometry/polygons.py` (`Rectangle`,
`HShape`, `CShape`), `mechanics/utils/utils.py` (`Line`, `LineSegment`) and
`mechanics/section/stress/transverse_shear.py` (`TransverseShear`).

Modelling conventions:
* Python floats are modelled by exact rationals (`ℚ`).  The source rounds
  every coordinate to 12 decimals (`round(float(p), 12)`) purely to make
  float equality tests robust; in exact rational arithmetic equality is
  already exact, so this rounding is the identity in the model.
* A Python run-time exception is modelled with `Except PyError`; the
  variants name the Python exception classes actually reachable in the
  embedded code.
* `pint.Quantity` unit wrappers are transparent: the core computes on the
  magnitudes in one consistent unit, exactly as the spec states.
-/

namespace Mech

/-- Python exceptions reachable in the embedded code. -/
inductive PyError where
  | indexError : PyError
  | zeroDivisionError : PyError
  | valueError : PyError
  | typeError : PyError
deriving DecidableEq, Repr

/-- A point `(x, y)` in the working length unit. -/
abbrev Pt := ℚ × ℚ

/-- Terms of a loop `for i in range(len(pts) - 1): s += f(pts[i], pts[i+1])`
over the closed vertex ring: the consecutive pairs of the list. -/
def edgeTerms (f : Pt → Pt → ℚ) (pts : List Pt) : List ℚ :=
  (pts.zip pts.tail).map (fun pq => f pq.1 pq.2)

/-- Sum accumulated by such a loop. -/
def edgeSum (f : Pt → Pt → ℚ) (pts : List Pt) : ℚ :=
  (edgeTerms f pts).sum

/-- The shoelace cross term `k_i = x_i*y_{i+1} - x_{i+1}*y_i`
(`Polygon.__area`, `Polygon.__centroid`, `Polygon.__inertia`). -/
def cross (p q : Pt) : ℚ := p.1 * q.2 - q.1 * p.2

/-- Summand of `sx` in `Polygon.__centroid`: `k_i * (x_i + x_{i+1})`. -/
def sxTerm (p q : Pt) : ℚ := cross p q * (p.1 + q.1)

/-- Summand of `sy` in `Polygon.__centroid`: `k_i * (y_i + y_{i+1})`. -/
def syTerm (p q : Pt) : ℚ := cross p q * (p.2 + q.2)

/-- Summand of `sxx` in `Polygon.__inertia`. -/
def sxxTerm (p q : Pt) : ℚ := cross p q * (p.2 ^ 2 + p.2 * q.2 + q.2 ^ 2)

/-- Summand of `syy` in `Polygon.__inertia`. -/
def syyTerm (p q : Pt) : ℚ := cross p q * (p.1 ^ 2 + p.1 * q.1 + q.1 ^ 2)

/-- Summand of `sxy` in `Polygon.__inertia`. -/
def sxyTerm (p q : Pt) : ℚ :=
  cross p q * (p.1 * q.2 + 2 * p.1 * p.2 + 2 * q.1 * q.2 + q.1 * p.2)

/-- The state of a constructed `Polygon` object: the closed point ring
`self._pts` and the cached derived attributes (`self._A`, `self._x_c`,
`self._y_c`, `self._I_xx`, `self._I_yy`, `self._I_xy`, `self._J`). -/
structure Polygon where
  pts : List Pt
  A : ℚ
  x_c : ℚ
  y_c : ℚ
  I_xx : ℚ
  I_yy : ℚ
  I_xy : ℚ
  J : ℚ
deriving DecidableEq, Repr

instance : Inhabited Polygon := ⟨⟨[], 0, 0, 0, 0, 0, 0, 0⟩⟩

/-- `if self._pts[0] != self._pts[-1]: self._pts = self._pts + self._pts[:1]`
from `Polygon.__init__`: close the vertex ring if needed. -/
def closeRing (v : Pt) (t : List Pt) : List Pt :=
  if v = (v :: t).getLast (by simp) then v :: t else (v :: t) ++ [v]

/-- `Polygon.__init__`: close the ring if needed, then compute and cache
area, centroid, inertia and polar moment.  An empty vertex list hits
`self._vertices[0]` (`IndexError`); a zero-area ring makes
`Polygon.__centroid` divide by `6 * self._A = 0` (`ZeroDivisionError`). -/
def mkPolygon : List Pt → Except PyError Polygon
  | [] => .error .indexError
  | v :: t =>
    let ring := closeRing v t
    let A := edgeSum cross ring / 2
    if A = 0 then .error .zeroDivisionError
    else
      let x_c := edgeSum sxTerm ring / (6 * A)
      let y_c := edgeSum syTerm ring / (6 * A)
      let I_xx := edgeSum sxxTerm ring / 12 - A * y_c ^ 2
      let I_yy := edgeSum syyTerm ring / 12 - A * x_c ^ 2
      let I_xy := edgeSum sxyTerm ring / 24 - A * x_c * y_c
      .ok { pts := ring, A := A, x_c := x_c, y_c := y_c,
            I_xx := I_xx, I_yy := I_yy, I_xy := I_xy, J := I_xx + I_yy }

/-- Total version of `mkPolygon` for writing closed statements about inputs
on which construction is known (and proved where it matters) to succeed. -/
def polygonOf (vertices : List Pt) : Polygon :=
  match mkPolygon vertices with
  | .ok p => p
  | .error _ => default

namespace Polygon

/-- `Polygon.area` accessor (magnitude). -/
def area (p : Polygon) : ℚ := p.A

/-- `Polygon.centroid` accessor (magnitudes). -/
def centroid (p : Polygon) : Pt := (p.x_c, p.y_c)

/-- `Polygon.vertices` property: the ring without the closing duplicate
(`self._x[:-1]`), each vertex relative to the centroid. -/
def verticesRel (p : Polygon) : List Pt :=
  p.pts.dropLast.map (fun q => (q.1 - p.x_c, q.2 - p.y_c))

/-- `Polygon.shift(x, y)`: rigidly translate the stored ring and the cached
centroid so that the centroid lands on `(x, y)`.  The cached `_A`, `_I_xx`,
`_I_yy`, `_I_xy`, `_J` fields are not touched by the source method. -/
def shift (p : Polygon) (x y : ℚ) : Polygon :=
  let dx := x - p.x_c
  let dy := y - p.y_c
  { p with
    pts := p.pts.map (fun q => (q.1 + dx, q.2 + dy)),
    x_c := p.x_c + dx,
    y_c := p.y_c + dy }

/-- `Polygon.__principal` / `principal_moments_of_inertia`, major moment:
`avg + sqrt(diff^2 + I_xy^2)`.  The source caches this at construction from
the same three inertia fields, which no operation ever mutates, so the
derived form agrees with the cached one at every observable point. -/
noncomputable def I_max (p : Polygon) : ℝ :=
  ((p.I_xx : ℝ) + p.I_yy) / 2
    + Real.sqrt ((((p.I_xx : ℝ) - p.I_yy) / 2) ^ 2 + (p.I_xy : ℝ) ^ 2)

/-- Minor principal moment: `avg - sqrt(diff^2 + I_xy^2)`. -/
noncomputable def I_min (p : Polygon) : ℝ :=
  ((p.I_xx : ℝ) + p.I_yy) / 2
    - Real.sqrt ((((p.I_xx : ℝ) - p.I_yy) / 2) ^ 2 + (p.I_xy : ℝ) ^ 2)

end Polygon

/-- `math.atan2(-y, x)` for finite float arguments, specialised to the
one call `Polygon.__principal` makes: `atan2(-self._I_xy, diff)`.  Python
negates the float `I_xy` before the call.  When `I_xy` is the zero float
— here always the `+0.0` produced by the subtraction of equal finite
values in `sxy/24 - A*x_c*y_c` — IEEE negation turns it into `-0.0`, and
`math.atan2(-0.0, x)` follows C99 Annex F signed-zero semantics: `-π` for
`x < 0` and a signed zero (equal to `0`) for `x ≥ 0`.  `ℝ` has no signed
zero, so the model takes the *un-negated* `y` and recovers the lost sign
information from the case split on `y` itself; for nonzero `y` the
negation is the ordinary one. -/
noncomputable def atan2neg (y x : ℝ) : ℝ :=
  if y = 0 then
    (if x < 0 then -Real.pi else 0)
  else if 0 < x then Real.arctan (-y / x)
  else if x < 0 then
    (if y < 0 then Real.arctan (-y / x) + Real.pi
     else Real.arctan (-y / x) - Real.pi)
  else
    (if y < 0 then Real.pi / 2
     else -(Real.pi / 2))

/-- Principal-axis angle `theta = atan2(-I_xy, (I_xx - I_yy)/2) / 2`
(`Polygon.__principal`); cached at construction from the inertia fields,
which are never mutated, so the derived form is faithful.  The negation
of the first argument lives inside `atan2neg`, which keeps the IEEE
behavior of negating a zero `I_xy`. -/
noncomputable def Polygon.theta (p : Polygon) : ℝ :=
  atan2neg (p.I_xy : ℝ) (((p.I_xx : ℝ) - p.I_yy) / 2) / 2

/-- The state of a `HollowPolygon`: the outer polygon and the (shifted)
inner polygon. -/
structure HollowPolygon where
  outer_polygon : Polygon
  inner_polygon : Polygon
deriving DecidableEq, Repr

/-- `HollowPolygon.__init__`: store both polygons and shift the inner one
onto the outer centroid.  The source constructor performs no other check:
in particular it never compares the two areas. -/
def mkHollowPolygon (outer inner : Polygon) : HollowPolygon :=
  { outer_polygon := outer,
    inner_polygon := inner.shift outer.x_c outer.y_c }

namespace HollowPolygon

/-- `HollowPolygon.area`: outer minus inner. -/
def area (h : HollowPolygon) : ℚ :=
  h.outer_polygon.area - h.inner_polygon.area

/-- `HollowPolygon.centroid`: the outer centroid. -/
def centroid (h : HollowPolygon) : Pt := h.outer_polygon.centroid

/-- `HollowPolygon.moment_of_inertia_xx`: outer minus inner. -/
def moment_of_inertia_xx (h : HollowPolygon) : ℚ :=
  h.outer_polygon.I_xx - h.inner_polygon.I_xx

/-- `HollowPolygon.moment_of_inertia_yy`: outer minus inner. -/
def moment_of_inertia_yy (h : HollowPolygon) : ℚ :=
  h.outer_polygon.I_yy - h.inner_polygon.I_yy

/-- `HollowPolygon.product_of_inertia`, exactly as the source reads:
`I_xy_o = self.outer_polygon.product_of_inertia;
 I_xy_i = self.outer_polygon.product_of_inertia;
 return I_xy_o - I_xy_i`
(both bindings read the *outer* polygon). -/
def product_of_inertia (h : HollowPolygon) : ℚ :=
  h.outer_polygon.I_xy - h.outer_polygon.I_xy

end HollowPolygon

/-- The closed set of shapes `TransverseShear` dispatches on via
`isinstance`. -/
inductive Shape where
  | polygon : Polygon → Shape
  | hollow : HollowPolygon → Shape
deriving DecidableEq, Repr

/-- `Rectangle.__create_vertices(width, height)` from
`mechanics/section/geometry/polygons.py`: `[p1, p4, p3, p2]`. -/
def rectangleVertices (width height : ℚ) : List Pt :=
  [(0, 0), (width, 0), (width, height), (0, height)]

/-! ### Geometric primitives (`mechanics/utils/utils.py`) -/

/-- The slope `m` of a `Line` built by `Line.from_two_points`: a finite
float, or `float('inf')` / `-float('inf')` when the two x-coordinates
coincide (`ZeroDivisionError` handler: `inf if y2 > y1 else -inf`). -/
inductive Slope where
  | fin : ℚ → Slope
  | posInf : Slope
  | negInf : Slope
deriving DecidableEq, Repr

/-- `segment.slope < 0` on the float slope. -/
def Slope.isNeg : Slope → Bool
  | .fin m => m < 0
  | .posInf => false
  | .negInf => true

/-- `segment.slope > 0` on the float slope. -/
def Slope.isPos : Slope → Bool
  | .fin m => 0 < m
  | .posInf => true
  | .negInf => false

/-- `np.isinf(m)`. -/
def Slope.isInf : Slope → Bool
  | .fin _ => false
  | _ => true

/-- A `LineSegment`: the two endpoints; every other attribute of the
source class is derived from them. -/
structure LineSegment where
  p1 : Pt
  p2 : Pt
deriving DecidableEq, Repr

instance : Inhabited LineSegment := ⟨⟨(0, 0), (0, 0)⟩⟩

namespace LineSegment

/-- `self.x1`. -/
def x1 (s : LineSegment) : ℚ := s.p1.1

/-- `self.y1`. -/
def y1 (s : LineSegment) : ℚ := s.p1.2

/-- `self.x2`. -/
def x2 (s : LineSegment) : ℚ := s.p2.1

/-- `self.y2`. -/
def y2 (s : LineSegment) : ℚ := s.p2.2

/-- `self.x_min`. -/
def x_min (s : LineSegment) : ℚ := min s.x1 s.x2

/-- `self.x_max`. -/
def x_max (s : LineSegment) : ℚ := max s.x1 s.x2

/-- `self.y_min`. -/
def y_min (s : LineSegment) : ℚ := min s.y1 s.y2

/-- `self.y_max`. -/
def y_max (s : LineSegment) : ℚ := max s.y1 s.y2

/-- The slope of the underlying `Line.from_two_points(p1, p2)`. -/
def slope (s : LineSegment) : Slope :=
  if s.x2 - s.x1 = 0 then (if s.y1 < s.y2 then .posInf else .negInf)
  else .fin ((s.y2 - s.y1) / (s.x2 - s.x1))

/-- `LineSegment.is_vertical()`. -/
def isVertical (s : LineSegment) : Bool := s.slope.isInf

/-- `LineSegment.is_horizontal()`: `m == 0.0`. -/
def isHorizontal (s : LineSegment) : Bool := s.slope = .fin 0

/-- `LineSegment.x(y)`: the x-coordinate on the segment at height `y`, or
`None` outside the inclusive y-bounds.  Inside the bounds the source
evaluates `Line.x(y) = (y - q)/m` with `q = y1 - m*x1`; for a horizontal
segment that division raises `ZeroDivisionError`, is caught as NaN, and
`x1` is returned; for a vertical segment the float arithmetic on the
infinite `m` yields NaN and `x1` is returned the same way. -/
def xAt (s : LineSegment) (y : ℚ) : Option ℚ :=
  if s.y_min ≤ y ∧ y ≤ s.y_max then
    some (match s.slope with
      | .fin m => if m = 0 then s.x1 else (y - (s.y1 - m * s.x1)) / m
      | _ => s.x1)
  else none

/-- `LineSegment.y(x)`: the y-coordinate at `x`, or `None` outside the
inclusive x-bounds; NaN from a vertical line falls back to `y1`. -/
def yAt (s : LineSegment) (x : ℚ) : Option ℚ :=
  if s.x_min ≤ x ∧ x ≤ s.x_max then
    some (match s.slope with
      | .fin m => m * x + (s.y1 - m * s.x1)
      | _ => s.y1)
  else none

/-- `LineSegment.contains(point)`. -/
def contains (s : LineSegment) (pt : Pt) : Bool :=
  let x := s.xAt pt.2
  let y := s.yAt pt.1
  let cond1 := x == some pt.1
  let cond2 := y == some pt.2
  if !s.isVertical && cond1 && cond2 then true
  else if s.isVertical && cond1 then true
  else if s.isHorizontal && cond2 then true
  else false

/-- `LineSegment.length`.  The source returns `abs(x2 - x1)` for a
horizontal segment, `abs(y2 - y1)` for a vertical one, and
`sqrt(dx**2 + dy**2)` otherwise.  The slanted branch (irrational in
general) is never evaluated by the embedded width computation, which
filters on `is_horizontal` first; it is modelled by `0` here and no
verified path depends on it. -/
def length (s : LineSegment) : ℚ :=
  if s.slope = .fin 0 then |s.x2 - s.x1|
  else if s.slope.isInf then |s.y2 - s.y1|
  else 0

/-- `LineSegment.coincide(other)`: same float slope and intercept, and
overlapping x-projections.  The intercept `q = y1 - m*x1` is compared for
finite slopes; for a vertical segment the float `q` is infinite or NaN and
the equality is modelled as never holding (the width computation only
calls `coincide` on horizontal segments, where `q = y1`). -/
def coincide (s o : LineSegment) : Bool :=
  let cond1 := s.slope == o.slope
  let cond2 := match s.slope, o.slope with
    | .fin ms, .fin mo => (s.y1 - ms * s.x1) == (o.y1 - mo * o.x1)
    | _, _ => false
  let cond3 := o.x_min ≤ s.x_min ∧ s.x_min ≤ o.x_max
  let cond5 := s.x_min ≤ o.x_min ∧ o.x_min ≤ s.x_max
  (cond1 && cond2) && (cond3 || cond5)

/-- `LineSegment.reverse()`. -/
def reverse (s : LineSegment) : LineSegment := ⟨s.p2, s.p1⟩

end LineSegment

/-! ### The shear-cut algorithm
(`mechanics/section/stress/transverse_shear.py`) -/

/-- `TransverseShear.__create_polygon_line_segments`: walk the
centroid-relative vertices (`polygon.vertices`) as a closed ring of
segments; the loop index `n = i + 1 if i + 1 <= i_max else 0` pairs each
vertex with its cyclic successor. -/
def createPolygonLineSegments (p : Polygon) : List LineSegment :=
  let vs := p.verticesRel
  (vs.zip (vs.rotate 1)).map (fun pq => ⟨pq.1, pq.2⟩)

/-- `TransverseShear.__create_line_segments`: outer ring as is; for a
hollow shape the inner ring is traversed in reverse with each segment
reversed. -/
def createLineSegments : Shape → List LineSegment
  | .polygon p => createPolygonLineSegments p
  | .hollow h =>
      createPolygonLineSegments h.outer_polygon
        ++ ((createPolygonLineSegments h.inner_polygon).reverse.map
              LineSegment.reverse)

/-- `TransverseShear.__get_intersections`: x-coordinates of every segment
at height `y` (skipping segments that return `None`), paired with `y`. -/
def getIntersections (y : ℚ) (segments : List LineSegment) : List Pt :=
  (segments.filterMap (fun s => s.xAt y)).map (fun x => (x, y))

/-- The clipping loop body of `TransverseShear._cut_polygon` for one
segment: each intersection contained in the *original* segment replaces
the stored segment (`segments[i] = new_segment`, the local `segment`
staying the original), keeping the far part for `y ≥ 0` and the near part
for `y < 0`, with the sides swapped between negative and positive slope;
horizontal segments (`slope == 0`) are left untouched. -/
def clipSegment (y : ℚ) (inters : List Pt) (s : LineSegment) : LineSegment :=
  inters.foldl (fun cur inter =>
    if s.contains inter then
      if s.slope.isNeg then
        (if 0 ≤ y then ⟨s.p1, inter⟩ else ⟨inter, s.p2⟩)
      else if s.slope.isPos then
        (if 0 ≤ y then ⟨inter, s.p2⟩ else ⟨s.p1, inter⟩)
      else cur
    else cur) s

/-- One `while` iteration of `TransverseShear.__order_segments`, recursing
on the length of `valid`: look for a segment continuing the current chain
forward (`segment.p1 == current.p2`, appended at the end) and then for one
continuing it backward (`segment.p2 == current.p1`, inserted before the
current segment); if neither exists, start a new chain after a `none`
break marker.  Each iteration removes at least one element of `valid`, so
the fuel `valid.length` is never exhausted. -/
def orderLoop : ℕ → List LineSegment → List (Option LineSegment) →
    LineSegment → List (Option LineSegment)
  | 0, _, ordered, _ => ordered
  | fuel + 1, valid, ordered, current =>
    if valid.isEmpty then ordered
    else
      match List.findIdx? (fun s => s.p1 == current.p2) valid with
      | some i =>
        let seg := valid.getD i default
        let valid2 := valid.eraseIdx i
        let ordered2 := ordered ++ [some seg]
        match List.findIdx? (fun s => s.p2 == current.p1) valid2 with
        | some i2 =>
          let seg2 := valid2.getD i2 default
          let valid3 := valid2.eraseIdx i2
          let j := (ordered2.indexOf (some current))
          orderLoop fuel valid3 (ordered2.insertIdx j (some seg2)) seg
        | none => orderLoop fuel valid2 ordered2 seg
      | none =>
        match List.findIdx? (fun s => s.p2 == current.p1) valid with
        | some i2 =>
          let seg2 := valid.getD i2 default
          let valid2 := valid.eraseIdx i2
          let j := (ordered.indexOf (some current))
          orderLoop fuel valid2 (ordered.insertIdx j (some seg2)) seg2
        | none =>
          match valid with
          | [] => ordered
          | c :: rest => orderLoop fuel rest (ordered ++ [none, some c]) c

/-- `TransverseShear.__order_segments`: drop horizontal segments lying on
the excluded side of the cut, then chain the rest; `valid_segments.pop(0)`
on an empty list raises `IndexError`.  The `None` chain-break markers are
removed at the end. -/
def orderSegments (y : ℚ) (segments : List LineSegment) :
    Except PyError (List LineSegment) :=
  let valid := segments.filter (fun s =>
    if s.isHorizontal then
      if 0 ≤ y then !(s.y1 < y) else !(y < s.y1)
    else true)
  match valid with
  | [] => .error .indexError
  | c :: rest => .ok ((orderLoop rest.length rest [some c] c).filterMap id)

/-- `TransverseShear.__get_vertices`: collect, in segment order, each
endpoint lying on the beyond-`y` side (`≥ y` when cutting upward, `≤ y`
when cutting downward). -/
def getVertices (y : ℚ) (segments : List LineSegment) : List Pt :=
  if 0 ≤ y then
    segments.flatMap (fun s =>
      (if y ≤ s.y1 then [s.p1] else []) ++ (if y ≤ s.y2 then [s.p2] else []))
  else
    segments.flatMap (fun s =>
      (if s.y1 ≤ y then [s.p1] else []) ++ (if s.y2 ≤ y then [s.p2] else []))

/-- `TransverseShear.__remove_duplicates`: stable deduplication, seeded
with `vertices[0]` (which raises `IndexError` on an empty list). -/
def removeDuplicates (vertices : List Pt) : Except PyError (List Pt) :=
  match vertices with
  | [] => .error .indexError
  | v :: _ =>
    .ok (vertices.foldl (fun uniq vertex =>
      if vertex ∈ uniq then uniq else uniq ++ [vertex]) [v])

/-- `TransverseShear._cut_polygon`: clip every segment at the cut height,
reorder the remainder into chains, collect the beyond-`y` vertices,
deduplicate them and build the cut `Polygon`. -/
def cutPolygon (y : ℚ) (shape : Shape) : Except PyError Polygon := do
  let segments := createLineSegments shape
  let intersections := getIntersections y segments
  let clipped := segments.map (clipSegment y intersections)
  let ordered ← orderSegments y clipped
  let vertices := getVertices y ordered
  let unique ← removeDuplicates vertices
  mkPolygon unique

/-- Stable insertion of an element into a sorted list: the new element
goes after every existing element `b` with `le b a`, so elements with
equal keys keep their original relative order. -/
def insertSorted {α : Type} (le : α → α → Bool) (a : α) :
    List α → List α
  | [] => [a]
  | b :: t => if le b a then b :: insertSorted le a t else a :: b :: t

/-- Python's `list.sort(key=...)` is a stable ascending sort; any two
stable sorts with the same comparator return the same list, and this
structural insertion sort is one of them. -/
def sortStable {α : Type} (le : α → α → Bool) (l : List α) : List α :=
  l.foldl (fun acc a => insertSorted le a acc) []

/-- `TransverseShear.__get_sum_of_lengths`: sort by `x1` (Python's stable
`list.sort`), then return the summed segment lengths together with the
span `last.x2 - first.x1`.  Every caller passes a nonempty list (the empty
case would have raised inside `min`/`max` already); on `[]` the source
would raise `IndexError` at `segments[0]`. -/
def getSumOfLengths (segments : List LineSegment) : ℚ × ℚ :=
  let sorted := sortStable (fun a b => a.x1 ≤ b.x1) segments
  match hs : sorted with
  | [] => (0, 0)
  | s :: rest =>
    ((sorted.map LineSegment.length).sum,
      ((s :: rest).getLast (by simp)).x2 - s.x1)

/-- `TransverseShear.__segments_do_overlap`: some segment coincides with
one of the others (`segments[:i] + segments[i+1:]`). -/
def segmentsDoOverlap (segments : List LineSegment) : Bool :=
  (List.range segments.length).any (fun i =>
    (segments.eraseIdx i).any (fun o => (segments.getD i default).coincide o))

/-- `TransverseShear.__determine_t`: among the horizontal segments of the
cut polygon, keep those at the governing height (minimal `y1` when
cutting at `y ≥ 0`, maximal `y1` when cutting below the centroid) and
derive the cut width; `.ok none` models the Python `return None`
(ambiguous connected run), `.error .valueError` the `ValueError` raised by
`min`/`max` on an empty sequence or by the explicit `raise`. -/
def determineT (y : ℚ) (cutPg : Polygon) : Except PyError (Option ℚ) :=
  let horizontal := (createPolygonLineSegments cutPg).filter
    (fun s => s.isHorizontal)
  if 0 ≤ y then
    match (horizontal.map LineSegment.y1).min? with
    | none => .error .valueError
    | some m =>
      let segs := horizontal.filter (fun s => s.y1 == m)
      let sums := getSumOfLengths segs
      if segs.length = 1 then
        .ok (some ((segs.headD default).length))
      else if 1 < segs.length ∧ sums.1 = sums.2 then
        .ok none
      else
        .ok (some sums.1)
  else
    match (horizontal.map LineSegment.y1).max? with
    | none => .error .valueError
    | some m =>
      let segs := horizontal.filter (fun s => s.y1 == m)
      match segs with
      | [s] => .ok (some s.length)
      | _ :: _ :: _ =>
        if segmentsDoOverlap segs then
          let sorted := sortStable (fun a b => a.length ≤ b.length) segs
          let l_max := ((sorted.getLast?).getD default).length
          let l_delta := (sorted.dropLast.map LineSegment.length).sum
          .ok (some (l_max - l_delta))
        else
          .ok (some (getSumOfLengths segs).1)
      | [] => .error .valueError

/-- `self.shape.moment_of_inertia_xx` under the dispatch of
`TransverseShear`. -/
def Shape.I_xx : Shape → ℚ
  | .polygon p => p.I_xx
  | .hollow h => h.moment_of_inertia_xx

/-- `TransverseShear.shear_flow(y)`: guarded by
`isinstance(self.shape, Polygon)` only — for a `HollowPolygon` the method
body is skipped and Python returns `None` (modelled `.ok none`). -/
def shear_flow (V : ℚ) (shape : Shape) (y : ℚ) :
    Except PyError (Option ℚ) :=
  match shape with
  | .polygon p => do
    let pg ← cutPolygon y (.polygon p)
    let Q := pg.area * |pg.y_c|
    if p.I_xx = 0 then .error .zeroDivisionError
    else .ok (some (V * Q / p.I_xx))
  | .hollow _ => .ok none

/-- `TransverseShear.tau(y)`: shear flow `q` from the cut at `y` divided
by the cut width; when `__determine_t` returns `None` the cut is retried
once at `y - Q_(0.01, y.units)` and `q` (from the *original* cut) is
divided by the retried width; a second `None` makes Python evaluate
`q / None` (`TypeError`). -/
def tau (V : ℚ) (shape : Shape) (y : ℚ) : Except PyError ℚ := do
  let pg ← cutPolygon y shape
  let Q := pg.area * |pg.y_c|
  if shape.I_xx = 0 then .error .zeroDivisionError
  else
    let q := V * Q / shape.I_xx
    let t1 ← determineT y pg
    match t1 with
    | some t =>
      if t = 0 then .error .zeroDivisionError else .ok (q / t)
    | none =>
      let y2 := y - 1 / 100
      let pg2 ← cutPolygon y2 shape
      let t2 ← determineT y2 pg2
      match t2 with
      | some t =>
        if t = 0 then .error .zeroDivisionError else .ok (q / t)
      | none => .error .typeError

/-- `HShape.__create_vertices(height, width, web_thickness,
flange_thickness)` from `mechanics/section/geometry/polygons.py` (the
assigned `pts[0..11]`, then `pts.reverse()`). -/
def hShapeVertices (height width web_thickness flange_thickness : ℚ) :
    List Pt :=
  let h := height
  let w := width
  let t_w := web_thickness
  let t_f := flange_thickness
  ([(0, 0), (0, t_f), ((w - t_w) / 2, t_f), ((w - t_w) / 2, h - t_f),
    (0, h - t_f), (0, h), (w, h), (w, h - t_f), ((w + t_w) / 2, h - t_f),
    ((w + t_w) / 2, t_f), (w, t_f), (w, 0)] : List Pt).reverse

/-- `CShape.__create_vertices(height, width, web_thickness,
flange_thickness, orientation = 0)`: the assigned `pts[0..7]`, then
`pts.reverse()`; a zero orientation applies no rotation. -/
def cShapeVertices (height width web_thickness flange_thickness : ℚ) :
    List Pt :=
  let h := height
  let w := width
  let t_w := web_thickness
  let t_f := flange_thickness
  ([(0, 0), (0, h), (w, h), (w, h - t_f), (t_w, h - t_f), (t_w, t_f),
    (w, t_f), (w, 0)] : List Pt).reverse

/-- `ZShape.__create_vertices(width, height, web_thickness,
flange_thickness, orientation = 0)`: the assigned `pts[0..7]`, not
reversed; a zero orientation applies no rotation. -/
def zShapeVertices (width height web_thickness flange_thickness : ℚ) :
    List Pt :=
  let w := width
  let h := height
  let t_w := web_thickness
  let t_f := flange_thickness
  [(0, 0), (w - t_f, 0), (w - t_f, -(h - t_w)), (w, -(h - t_w)), (w, t_w),
   (t_f, t_w), (t_f, h), (0, h)]

/-- Total wrapper around `cutPolygon` for closed statements, used only on
inputs where the cut is also proved to succeed. -/
def cutPolygonOf (y : ℚ) (s : Shape) : Polygon :=
  match cutPolygon y s with
  | .ok p => p
  | .error _ => default

/-- Decidable equality for embedded Python results. -/
instance {ε α : Type} [DecidableEq ε] [DecidableEq α] :
    DecidableEq (Except ε α) := fun a b =>
  match a, b with
  | .ok a, .ok b =>
    if h : a = b then .isTrue (by rw [h]) else .isFalse (by simp [h])
  | .error e, .error f =>
    if h : e = f then .isTrue (by rw [h]) else .isFalse (by simp [h])
  | .ok _, .error _ => .isFalse (by simp)
  | .error _, .ok _ => .isFalse (by simp)

/-! ## Theorems

Mathlib marks the arithmetic of `ℚ` `@[irreducible]`; concrete witnesses
are evaluated by `decide`, which needs those definitions transparent. -/

attribute [local semireducible] Rat.mul Rat.inv Rat.add Rat.sub

/-- Claim C9: `Polygon.shift(x, y)` is a rigid translation: every stored
vertex moves by the one common vector `(x - x_c, y - y_c)`, afterwards the
centroid is `(x, y)`, and the area, the three inertia components, the polar
moment, the principal moments and angle, and the centroid-relative vertex
list are all unchanged; no other field of the polygon exists to change. -/
theorem C9_shift_is_rigid_translation (p : Polygon) (x y : ℚ) :
    (p.shift x y).pts
        = p.pts.map (fun q => (q.1 + (x - p.x_c), q.2 + (y - p.y_c)))
      ∧ (p.shift x y).centroid = (x, y)
      ∧ (p.shift x y).area = p.area
      ∧ (p.shift x y).I_xx = p.I_xx
      ∧ (p.shift x y).I_yy = p.I_yy
      ∧ (p.shift x y).I_xy = p.I_xy
      ∧ (p.shift x y).J = p.J
      ∧ (p.shift x y).I_max = p.I_max
      ∧ (p.shift x y).I_min = p.I_min
      ∧ (p.shift x y).theta = p.theta
      ∧ (p.shift x y).verticesRel = p.verticesRel := by
  refine ⟨rfl, ?_, rfl, rfl, rfl, rfl, rfl, rfl, rfl, rfl, ?_⟩
  · simp [Polygon.shift, Polygon.centroid]
  · simp only [Polygon.shift, Polygon.verticesRel, ← List.map_dropLast,
      List.map_map]
    refine List.map_congr_left fun q _ => ?_
    simp only [Function.comp]
    rw [Prod.mk.injEq]
    exact ⟨by ring, by ring⟩

/-- Claim C10: `HollowPolygon.__init__` stores the outer polygon untouched
and stores the caller's inner polygon shifted in place onto the outer
centroid: afterwards the inner polygon's centroid accessor returns the
outer centroid while its cached area and moments of inertia are unchanged. -/
theorem C10_ctor_shifts_inner (o i : Polygon) :
    (mkHollowPolygon o i).outer_polygon = o
      ∧ (mkHollowPolygon o i).inner_polygon = i.shift o.x_c o.y_c
      ∧ (mkHollowPolygon o i).inner_polygon.centroid = o.centroid
      ∧ (mkHollowPolygon o i).inner_polygon.A = i.A
      ∧ (mkHollowPolygon o i).inner_polygon.I_xx = i.I_xx
      ∧ (mkHollowPolygon o i).inner_polygon.I_yy = i.I_yy
      ∧ (mkHollowPolygon o i).inner_polygon.I_xy = i.I_xy
      ∧ (mkHollowPolygon o i).inner_polygon.J = i.J := by
  refine ⟨rfl, rfl, ?_, rfl, rfl, rfl, rfl, rfl⟩
  simp [mkHollowPolygon, Polygon.shift, Polygon.centroid]

/-- Claim C2 is a code bug: `HollowPolygon.product_of_inertia` reads the
*outer* polygon twice (`I_xy_i = self.outer_polygon.product_of_inertia`),
so it always returns `0` instead of outer-minus-inner.  With a square
outer and a right-triangle inner (inner `I_xy = -2/9 ≠ 0`), the accessor
returns `0` while outer-minus-inner is `2/9`. -/
theorem C2_product_of_inertia_reads_outer_twice :
    (mkHollowPolygon (polygonOf (rectangleVertices 6 6))
        (polygonOf [(0, 0), (2, 0), (0, 2)])).product_of_inertia = 0
      ∧ (polygonOf (rectangleVertices 6 6)).I_xy
          - (mkHollowPolygon (polygonOf (rectangleVertices 6 6))
              (polygonOf [(0, 0), (2, 0), (0, 2)])).inner_polygon.I_xy
          = 2 / 9
      ∧ (2 : ℚ) / 9 ≠ 0 := by
  refine ⟨by decide, by decide, by norm_num⟩

/-- Claim C5 is false on the code: `HollowPolygon.__init__` performs no
area comparison at all (no `GeometryError` class even exists in the
repository).  With outer a 2×2 square and inner a 4×4 square
(`inner.area = 16 ≥ 4 = outer.area`) the constructor simply produces the
composite, whose area accessor returns `-12`. -/
theorem C5_counterexample :
    (polygonOf (rectangleVertices 4 4)).area
        ≥ (polygonOf (rectangleVertices 2 2)).area
      ∧ (mkHollowPolygon (polygonOf (rectangleVertices 2 2))
          (polygonOf (rectangleVertices 4 4))).area = -12 := by
  refine ⟨by decide, by decide⟩

/-- Claim C5 amended: for every pair of polygons with
`inner.area ≥ outer.area`, `HollowPolygon(outer, inner)` succeeds without
any check and produces a composite whose area is `outer.area − inner.area
≤ 0`; no `GeometryError` is raised (the code has no such error path). -/
theorem C5_no_area_check (o i : Polygon) (h : i.area ≥ o.area) :
    (mkHollowPolygon o i).area = o.area - i.area
      ∧ (mkHollowPolygon o i).area ≤ 0 := by
  refine ⟨rfl, ?_⟩
  have : (mkHollowPolygon o i).area = o.area - i.area := rfl
  rw [this]
  linarith

/-- Witness for `C5_no_area_check` at the concrete 2×2 / 4×4 squares. -/
theorem C5_no_area_check_witness :
    (mkHollowPolygon (polygonOf (rectangleVertices 2 2))
        (polygonOf (rectangleVertices 4 4))).area
        = (polygonOf (rectangleVertices 2 2)).area
          - (polygonOf (rectangleVertices 4 4)).area
      ∧ (mkHollowPolygon (polygonOf (rectangleVertices 2 2))
          (polygonOf (rectangleVertices 4 4))).area ≤ 0 :=
  C5_no_area_check (polygonOf (rectangleVertices 2 2))
    (polygonOf (rectangleVertices 4 4)) (by decide)

/-- Claim C6 is false on the code: degenerate vertex input (collinear, or
with duplicated vertices) reaches `Polygon.__centroid`, where
`sx / (6 * self._A)` with `A = 0` raises `ZeroDivisionError` — exactly the
division-by-zero failure the claim says is avoided.  No `GeometryError` or
`InvalidInputError` class exists in the repository. -/
theorem C6_counterexample :
    mkPolygon [(0, 0), (1, 1), (2, 2)] = .error .zeroDivisionError
      ∧ mkPolygon [(0, 0), (1, 0), (1, 0)] = .error .zeroDivisionError := by
  refine ⟨by decide, by decide⟩

/-- A loop step: `edgeSum` over a ring with at least two points left. -/
lemma edgeSum_cons (f : Pt → Pt → ℚ) (a b : Pt) (rest : List Pt) :
    edgeSum f (a :: b :: rest) = f a b + edgeSum f (b :: rest) := by
  simp [edgeSum, edgeTerms]

/-- Base case: a single leftover point contributes nothing. -/
lemma edgeSum_single (f : Pt → Pt → ℚ) (a : Pt) : edgeSum f [a] = 0 := rfl

/-- Symbolic evaluation of `Polygon.__init__` on the `Rectangle` vertex
ring `[(0,0), (w,0), (w,h), (0,h)]`. -/
lemma mkPolygon_rectangle (w h : ℚ) (hh : h ≠ 0) (hA : w * h ≠ 0) :
    mkPolygon (rectangleVertices w h) = .ok
      { pts := [(0, 0), (w, 0), (w, h), (0, h), (0, 0)],
        A := w * h, x_c := w / 2, y_c := h / 2,
        I_xx := w * h ^ 3 / 12, I_yy := h * w ^ 3 / 12, I_xy := 0,
        J := w * h ^ 3 / 12 + h * w ^ 3 / 12 } := by
  have hc : closeRing ((0 : ℚ), (0 : ℚ)) [(w, 0), (w, h), (0, h)]
      = [(0, 0), (w, 0), (w, h), (0, h), (0, 0)] := by
    unfold closeRing
    rw [if_neg]
    · rfl
    · intro hcon
      rw [show (((0 : ℚ), (0 : ℚ)) :: [(w, 0), (w, h), (0, h)]).getLast (by simp)
          = ((0 : ℚ), h) from rfl] at hcon
      exact hh (Prod.ext_iff.mp hcon).2.symm
  have hA2 : edgeSum cross [(0, 0), (w, 0), (w, h), (0, h), (0, 0)] / 2 = w * h := by
    simp only [edgeSum_cons, edgeSum_single, cross]
    ring
  simp only [mkPolygon, rectangleVertices, hc, hA2, hA, if_false]
  simp only [edgeSum_cons, edgeSum_single, cross, sxTerm, syTerm, sxxTerm,
    syyTerm, sxyTerm, Except.ok.injEq, Polygon.mk.injEq]
  refine ⟨trivial, trivial, ?_, ?_, ?_, ?_, ?_, ?_⟩ <;> field_simp <;> ring

/-- `atan2(-0.0, x) = -0.0`, i.e. `0`, for nonnegative `x`. -/
lemma atan2neg_zero_of_nonneg (x : ℝ) (hx : 0 ≤ x) : atan2neg 0 x = 0 := by
  simp [atan2neg, not_lt.mpr hx]

/-- `atan2(-0.0, x) = -π` for negative `x`. -/
lemma atan2neg_zero_of_neg (x : ℝ) (hx : x < 0) : atan2neg 0 x = -Real.pi := by
  simp [atan2neg, hx]

/-- Claim C7 amended: for every rectangle with `w, h > 0`, the area is
`w*h`, `I_xx = w*h³/12` and `I_xy = 0`; the principal-axis angle `θ` is
`0` when `w ≤ h`, but for `w > h` the code returns `θ = -π/2`
(`atan2(-0.0, d) = -π` for the then-negative half-difference `d`, the
first argument being the IEEE negation of the zero float `I_xy`), not
`θ = 0` as claimed. -/
theorem C7_rectangle (w h : ℚ) (hw : 0 < w) (hh : 0 < h) :
    ∃ p, mkPolygon (rectangleVertices w h) = .ok p
      ∧ p.area = w * h
      ∧ p.I_xx = w * h ^ 3 / 12
      ∧ p.I_xy = 0
      ∧ (w ≤ h → p.theta = 0)
      ∧ (h < w → p.theta = -(Real.pi / 2)) := by
  have hwR : (0 : ℝ) < (w : ℝ) := by exact_mod_cast hw
  have hhR : (0 : ℝ) < (h : ℝ) := by exact_mod_cast hh
  refine ⟨_, mkPolygon_rectangle w h hh.ne' (mul_pos hw hh).ne', rfl, rfl, rfl,
    ?_, ?_⟩
  · intro hwh
    simp only [Polygon.theta]
    have hwR2 : (w : ℝ) ≤ (h : ℝ) := by exact_mod_cast hwh
    have hd : (0 : ℝ) ≤ ((w : ℝ) * (h : ℝ) ^ 3 / 12 - (h : ℝ) * (w : ℝ) ^ 3 / 12) / 2 := by
      nlinarith [mul_pos hwR hhR, mul_pos (mul_pos hwR hhR) (add_pos hwR hhR)]
    norm_num [atan2neg_zero_of_nonneg _ hd]
  · intro hlt
    simp only [Polygon.theta]
    have hd : ((w : ℝ) * (h : ℝ) ^ 3 / 12 - (h : ℝ) * (w : ℝ) ^ 3 / 12) / 2 < 0 := by
      have hltR : (h : ℝ) < (w : ℝ) := by exact_mod_cast hlt
      nlinarith [mul_pos hwR hhR, mul_pos (mul_pos hwR hhR) (add_pos hwR hhR)]
    norm_num [atan2neg_zero_of_neg _ hd]
    ring

/-- Witness for `C7_rectangle` at the concrete rectangle `w = 1, h = 2`. -/
theorem C7_rectangle_witness :
    ∃ p, mkPolygon (rectangleVertices 1 2) = .ok p
      ∧ p.area = 1 * 2
      ∧ p.I_xx = 1 * 2 ^ 3 / 12
      ∧ p.I_xy = 0
      ∧ ((1 : ℚ) ≤ 2 → p.theta = 0)
      ∧ ((2 : ℚ) < 1 → p.theta = -(Real.pi / 2)) :=
  C7_rectangle 1 2 (by norm_num) (by norm_num)

/-- Claim C7 as frozen is false for `w > h`: for the rectangle `w = 2,
h = 1` the returned principal-axis angle is `-π/2`, not `0`. -/
theorem C7_counterexample :
    (polygonOf (rectangleVertices 2 1)).theta = -(Real.pi / 2)
      ∧ -(Real.pi / 2) ≠ 0 := by
  constructor
  · have h := mkPolygon_rectangle 2 1 (by norm_num) (by norm_num)
    simp only [polygonOf, h]
    simp only [Polygon.theta]
    norm_num
    rw [atan2neg_zero_of_neg _ (by norm_num)]
    ring
  · exact neg_ne_zero.mpr (div_ne_zero Real.pi_ne_zero two_ne_zero)

/-- Claim C6 amended: for every nonempty vertex list whose closed ring has
zero shoelace area, `Polygon` construction fails with the
`ZeroDivisionError` from the centroid division (and with `IndexError` on
an empty list); no dedicated geometry error exists. -/
theorem C6_zero_area_means_divide_by_zero (v : Pt) (t : List Pt)
    (h : edgeSum cross (closeRing v t) / 2 = 0) :
    mkPolygon (v :: t) = .error .zeroDivisionError := by
  simp only [mkPolygon, h, if_true]

/-- Witness for `C6_zero_area_means_divide_by_zero` at the collinear
input `[(0,0), (1,1), (2,2)]`. -/
theorem C6_zero_area_means_divide_by_zero_witness :
    mkPolygon [(0, 0), (1, 1), (2, 2)] = .error .zeroDivisionError :=
  C6_zero_area_means_divide_by_zero (0, 0) [(1, 1), (2, 2)] (by decide)

/-- Zipping ignores extra elements appended beyond the shorter list. -/
lemma zip_append_left_of_length_le {α β : Type} (l : List α) (r : List α)
    (m : List β) (h : m.length ≤ l.length) : (l ++ r).zip m = l.zip m := by
  induction l generalizing m with
  | nil =>
    have : m = [] := List.length_eq_zero.mp (Nat.le_zero.mp h)
    subst this
    simp
  | cons x l ih =>
    cases m with
    | nil => simp
    | cons y m =>
      simp only [List.cons_append, List.zip_cons_cons, List.cons.injEq, true_and]
      exact ih m (Nat.le_of_succ_le_succ h)

/-- The consecutive pairs of the closed ring `l ++ [l.head]` are the cyclic
pairs `l.zip (l.rotate 1)`. -/
lemma ring_pairs (v : Pt) (t : List Pt) :
    (((v :: t) ++ [v]).zip (((v :: t) ++ [v]).tail))
      = (v :: t).zip ((v :: t).rotate 1) := by
  have h1 : ((v :: t) ++ [v]).tail = t ++ [v] := by simp
  rw [h1, List.rotate_cons_succ, List.rotate_zero]
  exact zip_append_left_of_length_le (v :: t) [v] (t ++ [v]) (by simp)

/-- `closeRing` appends the head when the vertex list has no duplicates. -/
lemma closeRing_of_nodup (v : Pt) (t : List Pt) (hnd : (v :: t).Nodup)
    (ht : t ≠ []) : closeRing v t = (v :: t) ++ [v] := by
  unfold closeRing
  rw [if_neg]
  intro hc
  rw [List.getLast_cons ht] at hc
  exact (List.nodup_cons.mp hnd).1 (hc ▸ List.getLast_mem ht)

/-- The ring sums of `Polygon.__init__` are invariant under starting the
vertex ring at a different vertex. -/
lemma edgeSum_rotate (f : Pt → Pt → ℚ) (v : Pt) (t : List Pt) (k : ℕ)
    (v2 : Pt) (t2 : List Pt) (hnd : (v :: t).Nodup) (ht : t ≠ [])
    (hrot : (v :: t).rotate k = v2 :: t2) :
    edgeSum f (closeRing v2 t2) = edgeSum f (closeRing v t) := by
  have hnd2 : (v2 :: t2).Nodup := by
    rw [← hrot]
    exact List.nodup_rotate.mpr hnd
  have hlen : (v2 :: t2).length = (v :: t).length := by
    rw [← hrot, List.length_rotate]
  have ht2 : t2 ≠ [] := by
    intro hc
    subst hc
    simp only [List.length_cons, List.length_nil] at hlen
    have : t.length = 0 := by omega
    exact ht (List.length_eq_zero.mp this)
  rw [closeRing_of_nodup v t hnd ht, closeRing_of_nodup v2 t2 hnd2 ht2]
  unfold edgeSum edgeTerms
  rw [ring_pairs, ring_pairs]
  have hzip : (v2 :: t2).zip ((v2 :: t2).rotate 1)
      = ((v :: t).zip ((v :: t).rotate 1)).rotate k := by
    rw [← hrot]
    have h2 : ((v :: t).rotate k).rotate 1 = ((v :: t).rotate 1).rotate k := by
      rw [List.rotate_rotate, List.rotate_rotate, Nat.add_comm]
    rw [h2]
    simp only [List.zip]
    rw [List.zipWith_rotate_distrib _ _ _ _ (by rw [List.length_rotate])]
  rw [hzip]
  exact List.Perm.sum_eq (List.Perm.map _ (List.rotate_perm _ _))

/-- Claim C8: for every valid polygon (at least 3 distinct vertices,
nonzero ring area) and every cyclic rotation of its vertex list, the
computed area, centroid, `I_xx`, `I_yy` and `I_xy` equal those of the
original vertex order. -/
theorem C8_rotation_invariance (l : List Pt) (k : ℕ) (h3 : 3 ≤ l.length)
    (hnd : l.Nodup) (p : Polygon) (hp : mkPolygon l = .ok p) :
    ∃ q, mkPolygon (l.rotate k) = .ok q
      ∧ q.area = p.area ∧ q.x_c = p.x_c ∧ q.y_c = p.y_c
      ∧ q.I_xx = p.I_xx ∧ q.I_yy = p.I_yy ∧ q.I_xy = p.I_xy := by
  obtain ⟨v, t, rfl⟩ : ∃ v t, l = v :: t := by
    cases l with
    | nil => simp at h3
    | cons v t => exact ⟨v, t, rfl⟩
  have ht : t ≠ [] := by
    intro hc
    subst hc
    simp at h3
  obtain ⟨v2, t2, hrot⟩ : ∃ v2 t2, (v :: t).rotate k = v2 :: t2 := by
    cases hr : (v :: t).rotate k with
    | nil => exact absurd (List.rotate_eq_nil_iff.mp hr) (by simp)
    | cons v2 t2 => exact ⟨v2, t2, rfl⟩
  have hsum : ∀ f, edgeSum f (closeRing v2 t2) = edgeSum f (closeRing v t) :=
    fun f => edgeSum_rotate f v t k v2 t2 hnd ht hrot
  rw [hrot]
  simp only [mkPolygon, hsum] at hp ⊢
  by_cases hA : edgeSum cross (closeRing v t) / 2 = 0
  · rw [if_pos hA] at hp
    exact absurd hp (by simp)
  · rw [if_neg hA] at hp
    rw [if_neg hA]
    have hrec := Except.ok.inj hp
    subst hrec
    exact ⟨_, rfl, rfl, rfl, rfl, rfl, rfl, rfl⟩

/-- Witness for `C8_rotation_invariance`: the 4×3 rectangle ring rotated
by one position. -/
theorem C8_rotation_invariance_witness :
    ∃ q, mkPolygon (([(0, 0), (4, 0), (4, 3), (0, 3)] : List Pt).rotate 1) = .ok q
      ∧ q.area = (polygonOf [(0, 0), (4, 0), (4, 3), (0, 3)]).area
      ∧ q.x_c = (polygonOf [(0, 0), (4, 0), (4, 3), (0, 3)]).x_c
      ∧ q.y_c = (polygonOf [(0, 0), (4, 0), (4, 3), (0, 3)]).y_c
      ∧ q.I_xx = (polygonOf [(0, 0), (4, 0), (4, 3), (0, 3)]).I_xx
      ∧ q.I_yy = (polygonOf [(0, 0), (4, 0), (4, 3), (0, 3)]).I_yy
      ∧ q.I_xy = (polygonOf [(0, 0), (4, 0), (4, 3), (0, 3)]).I_xy :=
  C8_rotation_invariance [(0, 0), (4, 0), (4, 3), (0, 3)] 1 (by decide)
    (by decide) (polygonOf [(0, 0), (4, 0), (4, 3), (0, 3)]) (by decide)

lemma insertSorted_perm {α : Type} (le : α → α → Bool) (a : α) (l : List α) :
    (insertSorted le a l).Perm (a :: l) := by
  induction l with
  | nil => exact List.Perm.refl _
  | cons b t ih =>
    unfold insertSorted
    by_cases h : le b a
    · rw [if_pos h]
      exact (ih.cons b).trans (List.Perm.swap a b t)
    · rw [if_neg h]

lemma foldl_insertSorted_perm {α : Type} (le : α → α → Bool) (l acc : List α) :
    (l.foldl (fun acc a => insertSorted le a acc) acc).Perm (acc ++ l) := by
  induction l generalizing acc with
  | nil => simp
  | cons a t ih =>
    refine List.Perm.trans (ih (insertSorted le a acc)) ?_
    refine List.Perm.trans ((insertSorted_perm le a acc).append_right t) ?_
    exact List.perm_middle.symm

lemma sortStable_perm {α : Type} (le : α → α → Bool) (l : List α) :
    (sortStable le l).Perm l := by
  simpa using foldl_insertSorted_perm le l []

lemma insertSorted_pairwise {α : Type} (le : α → α → Bool)
    (htrans : ∀ x y z, le x y = true → le y z = true → le x z = true)
    (htot : ∀ x y, le x y = true ∨ le y x = true)
    (a : α) (l : List α) (h : l.Pairwise (fun x y => le x y = true)) :
    (insertSorted le a l).Pairwise (fun x y => le x y = true) := by
  induction l with
  | nil => simp [insertSorted]
  | cons b t ih =>
    rcases List.pairwise_cons.mp h with ⟨hb, ht⟩
    unfold insertSorted
    by_cases hba : le b a
    · rw [if_pos hba]
      refine List.pairwise_cons.mpr ⟨?_, ih ht⟩
      intro c hc
      have := (insertSorted_perm le a t).mem_iff.mp hc
      rcases List.mem_cons.mp this with hca | hct
      · subst hca
        exact hba
      · exact hb c hct
    · rw [if_neg hba]
      have hab : le a b = true := by
        rcases htot a b with h1 | h1
        · exact h1
        · exact absurd h1 hba
      refine List.pairwise_cons.mpr ⟨?_, h⟩
      intro c hc
      rcases List.mem_cons.mp hc with hcb | hct
      · subst hcb
        exact hab
      · exact htrans a b c hab (hb c hct)

lemma sortStable_pairwise {α : Type} (le : α → α → Bool)
    (htrans : ∀ x y z, le x y = true → le y z = true → le x z = true)
    (htot : ∀ x y, le x y = true ∨ le y x = true) (l : List α) :
    (sortStable le l).Pairwise (fun x y => le x y = true) := by
  suffices h : ∀ acc, acc.Pairwise (fun x y => le x y = true) →
      (l.foldl (fun acc a => insertSorted le a acc) acc).Pairwise
        (fun x y => le x y = true) from h [] (by simp)
  induction l with
  | nil => intro acc hacc; simpa using hacc
  | cons a t ih =>
    intro acc hacc
    exact ih _ (insertSorted_pairwise le htrans htot a acc hacc)

/-- The last element of the length-sorted segment list is a longest
segment, and the other lengths sum to the total minus its length. -/
lemma sortStable_length_getLast (l : List LineSegment) (hl : l ≠ []) :
    ((sortStable (fun a b => a.length ≤ b.length) l).getLast?.getD default) ∈ l
    ∧ (∀ s ∈ l, s.length ≤
        ((sortStable (fun a b => a.length ≤ b.length) l).getLast?.getD default).length)
    ∧ ((sortStable (fun a b => a.length ≤ b.length) l).dropLast.map LineSegment.length).sum
        = (l.map LineSegment.length).sum
          - ((sortStable (fun a b => a.length ≤ b.length) l).getLast?.getD default).length := by
  set le : LineSegment → LineSegment → Bool := fun a b => a.length ≤ b.length with hle
  have hperm := sortStable_perm le l
  have hsne : sortStable le l ≠ [] := by
    intro hc
    exact hl (List.Perm.eq_nil (hc ▸ hperm).symm)
  have hlast : (sortStable le l).getLast?.getD default
      = (sortStable le l).getLast hsne := by
    rw [List.getLast?_eq_getLast _ hsne]
    rfl
  have hmem : (sortStable le l).getLast hsne ∈ l :=
    hperm.mem_iff.mp (List.getLast_mem hsne)
  have hsorted : List.Pairwise (fun a b => le a b = true) (sortStable le l) :=
    sortStable_pairwise le
      (by
        intro a b c hab hbc
        simp only [hle, decide_eq_true_eq] at hab hbc ⊢
        exact le_trans hab hbc)
      (by
        intro a b
        simp only [hle, decide_eq_true_eq]
        exact le_total a.length b.length)
      l
  refine ⟨hlast ▸ hmem, ?_, ?_⟩
  · intro s hs
    rw [hlast]
    have hs2 : s ∈ sortStable le l := hperm.mem_iff.mpr hs
    obtain ⟨i, hi, hig⟩ := List.getElem_of_mem hs2
    have hlastg : (sortStable le l).getLast hsne
        = (sortStable le l)[(sortStable le l).length - 1] := by
      rw [List.getLast_eq_getElem]
    by_cases hilt : i < (sortStable le l).length - 1
    · have := (List.pairwise_iff_getElem.mp hsorted) i
        ((sortStable le l).length - 1) hi (by omega) hilt
      simp only [hle, decide_eq_true_eq] at this
      rw [hlastg, ← hig]
      exact this
    · have hieq : i = (sortStable le l).length - 1 := by omega
      subst hieq
      rw [hlastg, ← hig]
  · rw [hlast]
    have hsplit := List.dropLast_append_getLast hsne
    have hsum : ((sortStable le l).map LineSegment.length).sum
        = (l.map LineSegment.length).sum :=
      List.Perm.sum_eq (hperm.map _)
    calc ((sortStable le l).dropLast.map LineSegment.length).sum
        = ((sortStable le l).dropLast.map LineSegment.length).sum
            + ((sortStable le l).getLast hsne).length
            - ((sortStable le l).getLast hsne).length := by ring
      _ = (((sortStable le l).dropLast ++ [(sortStable le l).getLast hsne]).map LineSegment.length).sum
            - ((sortStable le l).getLast hsne).length := by
          rw [List.map_append, List.sum_append]
          simp
      _ = (l.map LineSegment.length).sum
            - ((sortStable le l).getLast hsne).length := by
          rw [hsplit, hsum]

/-- Claim C4 amended: the overlap-cancellation rule holds only for cut
heights *below* the centroid.  For every `y < 0`, when the horizontal
segments of the cut polygon at the governing (maximal-`y1`) height are
more than one and mutually overlapping, the returned cut width is the
length of a longest such segment minus the sum of the lengths of the
others.  (For `y ≥ 0` no overlap rule exists: `C4_counterexample`.) -/
theorem C4_overlap_rule_below_centroid (y m : ℚ) (pg : Polygon)
    (horizontal segs : List LineSegment)
    (hy : y < 0)
    (hh : horizontal
      = (createPolygonLineSegments pg).filter (fun s => s.isHorizontal))
    (hmax : (horizontal.map LineSegment.y1).max? = some m)
    (hsegs : segs = horizontal.filter (fun s => s.y1 == m))
    (hlen : 2 ≤ segs.length)
    (hov : segmentsDoOverlap segs = true) :
    ∃ lmax ∈ segs.map LineSegment.length,
      (∀ x ∈ segs.map LineSegment.length, x ≤ lmax)
      ∧ determineT y pg
          = .ok (some (lmax - ((segs.map LineSegment.length).sum - lmax))) := by
  have hne : segs ≠ [] := by
    intro hc
    rw [hc] at hlen
    simp at hlen
  obtain ⟨hmem, hmax2, hsum⟩ := sortStable_length_getLast segs hne
  refine ⟨((sortStable (fun a b => a.length ≤ b.length) segs).getLast?.getD
      default).length, List.mem_map_of_mem _ hmem, ?_, ?_⟩
  · intro x hx
    obtain ⟨s, hs, rfl⟩ := List.mem_map.mp hx
    exact hmax2 s hs
  · obtain ⟨s1, s2, rest, hss⟩ : ∃ s1 s2 rest, segs = s1 :: s2 :: rest := by
      match segs, hlen with
      | s1 :: s2 :: rest, _ => exact ⟨s1, s2, rest, rfl⟩
    simp only [determineT, ← hh, hmax, if_neg (not_le.mpr hy), ← hsegs, hss,
      hov, if_true]
    rw [← hss, hsum, if_pos hov]

/-- Witness for `C4_overlap_rule_below_centroid`: the channel (C-shape)
`h=6, w=4, t_w=1, t_f=1` cut at `y = -2`, where the two overlapping
horizontal segments of lengths 3 and 1 give width `3 - 1 = 2`. -/
theorem C4_witness :
    ∃ lmax ∈ ([(⟨(2, 1/2), (-1, 1/2)⟩ : LineSegment),
        ⟨(-1, 1/2), (-2, 1/2)⟩].map LineSegment.length),
      (∀ x ∈ ([(⟨(2, 1/2), (-1, 1/2)⟩ : LineSegment),
          ⟨(-1, 1/2), (-2, 1/2)⟩].map LineSegment.length), x ≤ lmax)
      ∧ determineT (-2) (cutPolygonOf (-2)
            (.polygon (polygonOf (cShapeVertices 6 4 1 1))))
          = .ok (some (lmax
              - (([(⟨(2, 1/2), (-1, 1/2)⟩ : LineSegment),
                  ⟨(-1, 1/2), (-2, 1/2)⟩].map LineSegment.length).sum - lmax))) :=
  C4_overlap_rule_below_centroid (-2) (1/2)
    (cutPolygonOf (-2) (.polygon (polygonOf (cShapeVertices 6 4 1 1))))
    [⟨(-2, -1/2), (2, -1/2)⟩, ⟨(2, 1/2), (-1, 1/2)⟩, ⟨(-1, 1/2), (-2, 1/2)⟩]
    [⟨(2, 1/2), (-1, 1/2)⟩, ⟨(-1, 1/2), (-2, 1/2)⟩]
    (by norm_num) (by decide) (by decide) (by decide) (by decide) (by decide)

/-- Claim C4 as frozen is false above the centroid: the Z-section
`w=4, h=3, t_w=1, t_f=1` cut at `y = 1/2 ≥ 0` yields two mutually
overlapping horizontal segments of lengths 3 and 4 at the governing
height, but `__determine_t` returns their *sum* `7`, not the claimed
`4 - 3 = 1` (the `y ≥ 0` branch never tests for overlap). -/
theorem C4_counterexample :
    ∃ pg, cutPolygon (1/2) (.polygon (polygonOf (zShapeVertices 4 3 1 1)))
        = .ok pg
      ∧ (((createPolygonLineSegments pg).filter
            (fun s => s.isHorizontal)).map LineSegment.y1).min? = some (-1)
      ∧ ((createPolygonLineSegments pg).filter
            (fun s => s.isHorizontal)).filter (fun s => s.y1 == (-1 : ℚ))
          = [⟨(7/2, -1), (1/2, -1)⟩, ⟨(-1/2, -1), (7/2, -1)⟩]
      ∧ segmentsDoOverlap
          [⟨(7/2, -1), (1/2, -1)⟩, ⟨(-1/2, -1), (7/2, -1)⟩] = true
      ∧ ([(⟨(7/2, -1), (1/2, -1)⟩ : LineSegment),
          ⟨(-1/2, -1), (7/2, -1)⟩].map LineSegment.length) = [3, 4]
      ∧ determineT (1/2) pg = .ok (some 7)
      ∧ (4 : ℚ) - 3 ≠ 7 := by
  refine ⟨cutPolygonOf (1/2) (.polygon (polygonOf (zShapeVertices 4 3 1 1))),
    by decide, by decide, by decide, by decide, by decide, by decide, by decide⟩

/-- Claim C3 amended: when `__determine_t` reports the ambiguous
connected-run case (`None`), `tau` retries the cut exactly once at
`y - 0.01` — a fixed *downward* offset in `y`'s unit, regardless of the
sign of `y` (for `y ≥ 0` this moves *toward* the centroid, not away from
it) — and returns `q` from the original cut divided by the retried
width. -/
theorem C3_retry_is_downward (V y : ℚ) (s : Shape) (pg pg2 : Polygon) (t : ℚ)
    (h1 : cutPolygon y s = .ok pg)
    (h2 : determineT y pg = .ok none)
    (hI : Shape.I_xx s ≠ 0)
    (h3 : cutPolygon (y - 1 / 100) s = .ok pg2)
    (h4 : determineT (y - 1 / 100) pg2 = .ok (some t))
    (ht : t ≠ 0) :
    tau V s y = .ok ((V * (pg.area * |pg.y_c|) / Shape.I_xx s) / t) := by
  simp only [tau, h1, h2, h3, h4, bind, Except.bind, if_neg hI, if_neg ht]

/-- Claim C3 as frozen is false: for the H-section `h=4, w=3, t_w=1,
t_f=1` cut at `y = 1 ≥ 0` (the flange/web junction, the ambiguous case),
the code's `tau` equals `q` divided by the width `1` of the *downward*
cut at `y - 0.01` (the web thickness), which differs from `q` divided by
the width `3` of the upward cut at `y + 0.01` (the flange width) that the
claim prescribes for `y ≥ 0`. -/
theorem C3_counterexample :
    (0 : ℚ) ≤ 1
    ∧ determineT 1 (cutPolygonOf 1
        (.polygon (polygonOf (hShapeVertices 4 3 1 1)))) = .ok none
    ∧ tau 1 (.polygon (polygonOf (hShapeVertices 4 3 1 1))) 1 = .ok (27 / 88)
    ∧ determineT (1 - 1 / 100) (cutPolygonOf (1 - 1 / 100)
        (.polygon (polygonOf (hShapeVertices 4 3 1 1)))) = .ok (some 1)
    ∧ determineT (1 + 1 / 100) (cutPolygonOf (1 + 1 / 100)
        (.polygon (polygonOf (hShapeVertices 4 3 1 1)))) = .ok (some 3)
    ∧ (27 : ℚ) / 88
        = (1 * ((cutPolygonOf 1 (.polygon (polygonOf (hShapeVertices 4 3 1 1)))).area
            * |(cutPolygonOf 1 (.polygon (polygonOf (hShapeVertices 4 3 1 1)))).y_c|)
            / Shape.I_xx (.polygon (polygonOf (hShapeVertices 4 3 1 1)))) / 1
    ∧ (1 * ((cutPolygonOf 1 (.polygon (polygonOf (hShapeVertices 4 3 1 1)))).area
            * |(cutPolygonOf 1 (.polygon (polygonOf (hShapeVertices 4 3 1 1)))).y_c|)
            / Shape.I_xx (.polygon (polygonOf (hShapeVertices 4 3 1 1)))) / 3
        ≠ 27 / 88 := by
  refine ⟨by norm_num, by decide, by decide, by decide, by decide, by decide,
    by decide⟩

/-- Witness for `C3_retry_is_downward` at the concrete H-section and
`y = 1`. -/
theorem C3_witness :
    tau 1 (.polygon (polygonOf (hShapeVertices 4 3 1 1))) 1
      = .ok ((1 * ((cutPolygonOf 1
            (.polygon (polygonOf (hShapeVertices 4 3 1 1)))).area
          * |(cutPolygonOf 1
            (.polygon (polygonOf (hShapeVertices 4 3 1 1)))).y_c|)
          / Shape.I_xx (.polygon (polygonOf (hShapeVertices 4 3 1 1)))) / 1) :=
  C3_retry_is_downward 1 1 (.polygon (polygonOf (hShapeVertices 4 3 1 1)))
    (cutPolygonOf 1 (.polygon (polygonOf (hShapeVertices 4 3 1 1))))
    (cutPolygonOf (1 - 1 / 100)
      (.polygon (polygonOf (hShapeVertices 4 3 1 1)))) 1
    (by decide) (by decide) (by decide) (by decide) (by decide) (by decide)

/-- Claim C1 is a code bug: `shear_flow` is guarded by
`isinstance(self.shape, Polygon)`, which a `HollowPolygon` (a sibling of
`Polygon`, not a subclass) fails, so the method returns `None` for every
hollow shape even though the cut itself succeeds and the sibling method
`tau` — whose guard includes `HollowPolygon` — computes a numeric value
on the same shape and height. -/
theorem C1_hollow_gets_none :
    cutPolygon 1 (.hollow (mkHollowPolygon (polygonOf (rectangleVertices 6 8))
        (polygonOf (rectangleVertices 4 6))))
      = .ok (cutPolygonOf 1 (.hollow (mkHollowPolygon
          (polygonOf (rectangleVertices 6 8))
          (polygonOf (rectangleVertices 4 6)))))
    ∧ shear_flow 10 (.hollow (mkHollowPolygon
        (polygonOf (rectangleVertices 6 8))
        (polygonOf (rectangleVertices 4 6)))) 1 = .ok none
    ∧ tau 10 (.hollow (mkHollowPolygon (polygonOf (rectangleVertices 6 8))
        (polygonOf (rectangleVertices 4 6)))) 1 = .ok (145 / 184) := by
  refine ⟨by decide, by decide, by decide⟩

end Mech
